import Mathlib

/-!
# Verification of the VrindaAI orchestration core

This file gives a shallow embedding, in Lean 4, of the model-slot scheduler and
workflow-graph executor of the VrindaAI repository, and proves (or refutes)
the specification claims about them.

The embedding follows the C++ sources:

* `src/Controllers/llamaservercontroller.cpp` — the process supervisor
  (`LSCState`, `stopServer`, `startServer`, `processFinished`);
* `src/Services/modelmanager.cpp` — the model-slot scheduler
  (`MMState`, `sendRequest`, `processPendingRequestQueue`, retry logic);
* `src/Controllers/projectworkflow.cpp` — the workflow-graph executor
  (`WFState`, `startWorkflowFromPlan`, `evaluateWorkflow`, `taskFinished`,
  `taskFailed`, `applyPlanModification`);
* `src/mainwindow.cpp` — the health-check poller registered on the
  `startHealthCheck` signal.

The Qt runtime delivers every callback (network replies, timers, process-exit
notifications) sequentially on one event loop, so stateful C++ methods become
pure Lean functions from state to state paired with the list of emitted
signals/side effects, and each deferred callback (a `QTimer::singleShot`
lambda, a `QProcess::finished` handler) becomes an explicitly applied
transition function.
-/

/-! ## Process supervisor: `LlamaServerController` -/

/-- A backend server process handle, as held in the controller's
`m_activeServers` registry (`QMap<int, QProcess*>`).  `alive` is the
`QProcess` state being different from `NotRunning`. -/
structure SProc where
  model : String
  alive : Bool
  deriving DecidableEq, Repr

/-- State of `LlamaServerController`: the port → process registry
`m_activeServers` and the controller's own `m_activeModelName` /
`m_activeModelPort` fields. -/
structure LSCState where
  activeServers : List (Int × SProc)
  activeModelName : String
  activeModelPort : Int
  deriving DecidableEq, Repr

/-- The freshly constructed controller: empty registry, no active model. -/
def emptyLSC : LSCState :=
  { activeServers := [], activeModelName := "", activeModelPort := 0 }

/-- Signals emitted / externally visible side effects of the controller.
`procKill` records the `process->kill()` call in `stopServer`. -/
inductive LSCEvent where
  | serverStatus (msg : String)
  | serverError (msg : String)
  | procKill (port : Int) (model : String)
  deriving DecidableEq, Repr

/-- `QMap<int, QProcess*>::value`-style lookup in the registry. -/
def portLookup (m : List (Int × SProc)) (port : Int) : Option SProc :=
  match m with
  | [] => none
  | (p, v) :: rest => if p = port then some v else portLookup rest port

/-- `QMap::remove` on the registry. -/
def portRemove (m : List (Int × SProc)) (port : Int) : List (Int × SProc) :=
  match m with
  | [] => []
  | (p, v) :: rest =>
      if p = port then portRemove rest port else (p, v) :: portRemove rest port

/-- The ports registered in the registry. -/
def portKeys (m : List (Int × SProc)) : List Int :=
  m.map Prod.fst

/-- `LlamaServerController::stopServer(int port)` (declared as
`stopServerOnPort` in the header): if a process is registered on `port`,
force-kill it (when still running), remove the registry entry and emit a
status message; otherwise do nothing.  The deferred `QProcess::finished`
callback that the kill provokes is modelled separately by
`processFinished`. -/
def stopServer (s : LSCState) (port : Int) : LSCState × List LSCEvent :=
  match portLookup s.activeServers port with
  | none => (s, [])
  | some p =>
      ({ s with activeServers := portRemove s.activeServers port },
        (if p.alive then [LSCEvent.procKill port p.model] else []) ++
          [LSCEvent.serverStatus "SWAP: Server stopped successfully."])

/-- `LlamaServerController::startServer(modelName, port)`: if the port is
already in the registry, emit `serverError` and return without any state
change; otherwise record the model as the controller's active one, register
a fresh running process on the port and launch it. -/
def startServer (s : LSCState) (modelName : String) (port : Int) :
    LSCState × List LSCEvent :=
  if (portLookup s.activeServers port).isSome then
    (s, [LSCEvent.serverError "Cannot start: port is already in use."])
  else
    ({ activeServers := (port, { model := modelName, alive := true }) :: s.activeServers,
       activeModelName := modelName,
       activeModelPort := port },
      [LSCEvent.serverStatus "SWAPPING: loading model."])

/-- The `QProcess::finished` handler connected in `startServer`: on crash or
nonzero exit code emit `serverError`; always remove the registry entry for the
port; if the controller's own `m_activeModelPort` equals the port, clear the
controller's `m_activeModelName` / `m_activeModelPort`. -/
def processFinished (s : LSCState) (port : Int) (exitCode : Int) (crashExit : Bool) :
    LSCState × List LSCEvent :=
  let evs := if crashExit ∨ exitCode ≠ 0 then
      [LSCEvent.serverError "Model CRASHED on port."] else []
  let s1 := { s with activeServers := portRemove s.activeServers port }
  (if s1.activeModelPort = port then
      { s1 with activeModelPort := 0, activeModelName := "" }
    else s1, evs)

/-- One controller operation, for stating invariants over arbitrary
start/stop/exit sequences. -/
inductive LSCOp where
  | start (model : String) (port : Int)
  | stop (port : Int)
  | exited (port : Int) (exitCode : Int) (crash : Bool)
  deriving DecidableEq, Repr

/-- Apply one controller operation. -/
def applyLSCOp (s : LSCState) (op : LSCOp) : LSCState × List LSCEvent :=
  match op with
  | LSCOp.start model port => startServer s model port
  | LSCOp.stop port => stopServer s port
  | LSCOp.exited port code crash => processFinished s port code crash

/-- Run a sequence of controller operations from a state, discarding events. -/
def runLSCOps (s : LSCState) (ops : List LSCOp) : LSCState :=
  match ops with
  | [] => s
  | op :: rest => runLSCOps (applyLSCOp s op).1 rest

/-! Registry key lemmas. -/

theorem portKeys_portRemove (m : List (Int × SProc)) (port : Int) :
    portKeys (portRemove m port) = (portKeys m).filter (fun p => !decide (p = port)) := by
  induction m with
  | nil => rfl
  | cons hd tl ih =>
      obtain ⟨p, v⟩ := hd
      by_cases h : p = port
      · simp [portRemove, portKeys, h]
        simpa [portKeys] using ih
      · simp [portRemove, portKeys, h]
        simpa [portKeys] using ih

theorem portLookup_none_iff (m : List (Int × SProc)) (port : Int) :
    portLookup m port = none ↔ port ∉ portKeys m := by
  induction m with
  | nil => simp [portLookup, portKeys]
  | cons hd tl ih =>
      obtain ⟨p, v⟩ := hd
      simp only [portLookup, portKeys, List.map_cons, List.mem_cons]
      by_cases h : p = port
      · subst h
        simp
      · rw [if_neg h]
        unfold portKeys at ih
        rw [ih]
        constructor
        · intro hn hc
          rcases hc with hc | hc
          · exact h hc.symm
          · exact hn hc
        · intro hn hc
          exact hn (Or.inr hc)

theorem nodup_portRemove (m : List (Int × SProc)) (port : Int)
    (h : (portKeys m).Nodup) : (portKeys (portRemove m port)).Nodup := by
  rw [portKeys_portRemove]
  exact h.filter _

/-- At most one registry entry per port is preserved by every single
controller operation. -/
theorem applyLSCOp_preserves_nodup (s : LSCState) (op : LSCOp)
    (h : (portKeys s.activeServers).Nodup) :
    (portKeys (applyLSCOp s op).1.activeServers).Nodup := by
  cases op with
  | start model port =>
      simp only [applyLSCOp, startServer]
      cases hh : portLookup s.activeServers port with
      | some v => simp [hh, h]
      | none =>
          have hnotin : port ∉ portKeys s.activeServers :=
            (portLookup_none_iff s.activeServers port).mp hh
          simp only [hh, Option.isSome_none, Bool.false_eq_true, if_false, portKeys,
            List.map_cons, List.nodup_cons]
          exact ⟨by simpa [portKeys] using hnotin, by simpa [portKeys] using h⟩
  | stop port =>
      simp only [applyLSCOp, stopServer]
      cases hh : portLookup s.activeServers port with
      | none => simpa using h
      | some p => simpa using nodup_portRemove _ _ h
  | exited port code crash =>
      simp only [applyLSCOp, processFinished]
      split
      · exact nodup_portRemove _ _ h
      · exact nodup_portRemove _ _ h

theorem runLSCOps_preserves_nodup (ops : List LSCOp) (s : LSCState)
    (h : (portKeys s.activeServers).Nodup) :
    (portKeys (runLSCOps s ops).activeServers).Nodup := by
  induction ops generalizing s with
  | nil => simpa [runLSCOps] using h
  | cons op rest ih =>
      exact ih _ (applyLSCOp_preserves_nodup s op h)

/-! ## Claim C7: occupied-port start behavior -/

/-- C7, counterexample: starting "m2" on port 8080 while "m1" occupies it does
NOT terminate the occupant and does NOT start "m2".  The call emits only a
`serverError`, leaves the controller state unchanged, and the registry entry
for 8080 is still "m1"'s running process. -/
theorem C7_counterexample :
    (startServer (startServer emptyLSC "m1" 8080).1 "m2" 8080).2 =
        [LSCEvent.serverError "Cannot start: port is already in use."] ∧
    (startServer (startServer emptyLSC "m1" 8080).1 "m2" 8080).1 =
        (startServer emptyLSC "m1" 8080).1 ∧
    portLookup (startServer (startServer emptyLSC "m1" 8080).1 "m2" 8080).1.activeServers
        8080 = some { model := "m1", alive := true } := by
  refine ⟨by decide, by decide, by decide⟩

/-- C7, amended: `startServer(model, port)` on an occupied port is rejected
with a `serverError` and changes nothing — the occupant is not terminated and
the requested model is not started (a slot is freed only by `stopServer`'s
force-kill or by process exit).  The at-most-one-process-per-port invariant
does hold across every sequence of start/stop/exit operations. -/
theorem C7_amended (ops : List LSCOp) (s : LSCState) (model : String) (port : Int)
    (hocc : (portLookup s.activeServers port).isSome = true) :
    (portKeys (runLSCOps emptyLSC ops).activeServers).Nodup ∧
    startServer s model port =
      (s, [LSCEvent.serverError "Cannot start: port is already in use."]) := by
  constructor
  · exact runLSCOps_preserves_nodup ops emptyLSC (by simp [emptyLSC, portKeys])
  · simp [startServer, hocc]

/-- C7, witness for the amended theorem at a concrete occupied port. -/
theorem C7_amended_witness :
    (portLookup (startServer emptyLSC "m1" 8080).1.activeServers 8080).isSome = true ∧
    ((portKeys (runLSCOps emptyLSC [LSCOp.start "m1" 8080, LSCOp.stop 8080]).activeServers).Nodup ∧
      startServer (startServer emptyLSC "m1" 8080).1 "m2" 8080 =
        ((startServer emptyLSC "m1" 8080).1,
          [LSCEvent.serverError "Cannot start: port is already in use."])) :=
  ⟨by decide,
    C7_amended [LSCOp.start "m1" 8080, LSCOp.stop 8080]
      (startServer emptyLSC "m1" 8080).1 "m2" 8080 (by decide)⟩

/-! ## Model-slot scheduler: `ModelManager` -/

/-- `ModelManager::PendingRequest`: a request stored while waiting for the
required model to be loaded. -/
structure PendingRequest where
  taskId : String
  role : String
  prompt : String
  model : String
  port : Int
  deriving DecidableEq, Repr

/-- State of `ModelManager`.  `hasServerController` models whether
`setServerController` has been called (the `m_serverController` pointer being
non-null); `lsc` is that controller's state.  The remaining fields are
`m_activeModelName`, `m_activeModelPort`, `m_isCurrentlySwapping` and
`m_pendingRequests`. -/
structure MMState where
  hasServerController : Bool
  lsc : LSCState
  activeModelName : String
  activeModelPort : Int
  isCurrentlySwapping : Bool
  pendingRequests : List PendingRequest
  deriving DecidableEq, Repr

/-- `m_defaultModel` from the `ModelManager` constructor. -/
def defaultModel : String := "mistral.gguf"

/-- `m_roleToModelMap` as populated by the `ModelManager` constructor. -/
def roleToModelMap : List (String × String) :=
  [("Manager", "qwencoder.gguf"),
   ("Coder", "qwencoder.gguf"),
   ("Planner", "mistral.gguf"),
   ("Researcher", "Phimini.gguf")]

/-- `m_modelToPortMap` as populated by the `ModelManager` constructor. -/
def modelToPortMap : List (String × Int) :=
  [("Phimini.gguf", 8080),
   ("qwencoder.gguf", 8081),
   ("llava.gguf -- mmproj-model-f16.gguf", 8082),
   ("mistral.gguf", 8083)]

/-- `QMap<QString, ...>` lookup. -/
def lookupStr {α : Type} (m : List (String × α)) (key : String) : Option α :=
  match m with
  | [] => none
  | (k, v) :: rest => if k = key then some v else lookupStr rest key

/-- `ModelManager::getModelForRole`: `m_roleToModelMap.value(role, m_defaultModel)`. -/
def getModelForRole (role : String) : String :=
  (lookupStr roleToModelMap role).getD defaultModel

/-- The port picked in `sendRequest`: `m_modelToPortMap.value(requiredModel, 8080)`. -/
def portForModel (model : String) : Int :=
  (lookupStr modelToPortMap model).getD 8080

/-- Signals emitted / side effects of `ModelManager`.  `networkSend` records an
invocation of `sendNetworkRequest` (the inference dispatch), tagged with the
`QTimer::singleShot` stagger delay it was scheduled under (0 for a direct
call); `healthCheckStart` records the `startHealthCheck` signal;
`deferredSwapCheck` records the delayed next-swap callback scheduled at the
end of a queue drain. -/
inductive MMEvent where
  | requestFailed (taskId role err : String)
  | responseReady (taskId role response modelUsed : String)
  | networkSend (delayMs : Int) (taskId role prompt model : String) (port : Int)
  | healthCheckStart (port : Int)
  | deferredSwapCheck (delayMs : Int)
  | lsc (e : LSCEvent)
  deriving DecidableEq, Repr

/-- A freshly constructed `ModelManager` wired (via `setServerController`) to a
freshly constructed `LlamaServerController`. -/
def initMM : MMState :=
  { hasServerController := true
    lsc := emptyLSC
    activeModelName := ""
    activeModelPort := 0
    isCurrentlySwapping := false
    pendingRequests := [] }

/-- `ModelManager::sendRequest(taskId, role, prompt)`:

1. with no server controller, emit `requestFailed` and stop;
2. if the required model is already active and no swap is in progress,
   dispatch immediately;
3. otherwise enqueue the request;
4. if a swap is already in progress, stop here;
5. otherwise set the swap flag, stop the server on the *active* port
   (`m_serverController->stopServerOnPort(m_activeModelPort)`), record the
   required model/port as active, start the required model on its port, and
   emit `startHealthCheck` for that port (whose continuation is modelled by
   `healthReady`). -/
def sendRequest (s : MMState) (taskId role prompt : String) : MMState × List MMEvent :=
  if s.hasServerController = false then
    (s, [MMEvent.requestFailed taskId role "Server controller not initialized."])
  else
    let requiredModel := getModelForRole role
    let requiredPort := portForModel requiredModel
    if s.activeModelName = requiredModel ∧ s.isCurrentlySwapping = false then
      (s, [MMEvent.networkSend 0 taskId role prompt requiredModel requiredPort])
    else
      let s1 := { s with pendingRequests :=
        s.pendingRequests ++ [⟨taskId, role, prompt, requiredModel, requiredPort⟩] }
      if s1.isCurrentlySwapping then
        (s1, [])
      else
        let s2 := { s1 with isCurrentlySwapping := true }
        let stopRes := stopServer s2.lsc s2.activeModelPort
        let s3 := { s2 with lsc := stopRes.1,
                            activeModelName := requiredModel,
                            activeModelPort := requiredPort }
        let startRes := startServer s3.lsc requiredModel requiredPort
        ({ s3 with lsc := startRes.1 },
          stopRes.2.map MMEvent.lsc ++ startRes.2.map MMEvent.lsc ++
            [MMEvent.healthCheckStart requiredPort])

/-- The drain loop inside `ModelManager::processPendingRequestQueue`: dequeue
each pending request; a request whose model matches the active model is
dispatched via a `singleShot` at the current stagger delay (which then grows
by 1500 ms); any other request is kept in the queue in order. -/
def drainLoop (active : String) (queue : List PendingRequest) (stagger : Int) :
    List PendingRequest × Int × List MMEvent :=
  match queue with
  | [] => ([], stagger, [])
  | req :: rest =>
      if req.model = active then
        let r := drainLoop active rest (stagger + 1500)
        (r.1, r.2.1,
          MMEvent.networkSend stagger req.taskId req.role req.prompt req.model req.port
            :: r.2.2)
      else
        let r := drainLoop active rest stagger
        (req :: r.1, r.2.1, r.2.2)

/-- `ModelManager::processPendingRequestQueue`: with an empty queue just clear
the swap flag; otherwise drain (stagger starting at 100 ms); if requests for a
different model remain, schedule the deferred next-swap callback at
`stagger + 1000` ms (modelled by `deferredSwapCheck`), leaving the swap flag
set; otherwise clear the swap flag. -/
def processPendingRequestQueue (s : MMState) : MMState × List MMEvent :=
  if s.pendingRequests = [] then
    ({ s with isCurrentlySwapping := false }, [])
  else
    let d := drainLoop s.activeModelName s.pendingRequests 100
    if d.1 = [] then
      ({ s with pendingRequests := [], isCurrentlySwapping := false }, d.2.2)
    else
      ({ s with pendingRequests := d.1 },
        d.2.2 ++ [MMEvent.deferredSwapCheck (d.2.1 + 1000)])

/-- The health-check continuation lambda registered by `sendRequest`: clear
`m_isCurrentlySwapping`, then `processPendingRequestQueue()`. -/
def healthReady (s : MMState) : MMState × List MMEvent :=
  processPendingRequestQueue { s with isCurrentlySwapping := false }

/-- The deferred next-swap callback scheduled by `processPendingRequestQueue`:
if the queue is still non-empty, read (without dequeuing!) its head, clear the
swap flag and call `sendRequest` again with the head's arguments. -/
def deferredSwap (s : MMState) : MMState × List MMEvent :=
  match s.pendingRequests with
  | [] => (s, [])
  | next :: _ =>
      sendRequest { s with isCurrentlySwapping := false } next.taskId next.role next.prompt

/-- One scheduler-level event-loop step: an external `sendRequest` call, the
health-gate continuation firing, the deferred next-swap callback firing, or a
backend process exit (`QProcess::finished`, delivered to the controller). -/
inductive MMStep where
  | call (taskId role prompt : String)
  | ready
  | deferred
  | exited (port : Int) (code : Int) (crash : Bool)
  deriving DecidableEq, Repr

/-- Apply one scheduler-level step. -/
def applyMMStep (s : MMState) (step : MMStep) : MMState × List MMEvent :=
  match step with
  | MMStep.call taskId role prompt => sendRequest s taskId role prompt
  | MMStep.ready => healthReady s
  | MMStep.deferred => deferredSwap s
  | MMStep.exited port code crash =>
      let r := processFinished s.lsc port code crash
      ({ s with lsc := r.1 }, r.2.map MMEvent.lsc)

/-- Run a sequence of scheduler-level steps, accumulating all events. -/
def runMM (s : MMState) (steps : List MMStep) : MMState × List MMEvent :=
  match steps with
  | [] => (s, [])
  | st :: rest =>
      let r := applyMMStep s st
      let r2 := runMM r.1 rest
      (r2.1, r.2 ++ r2.2)

/-! ## Claim C1: backend crash does not clear the scheduler's active model -/

/-- C1, code evaluated at the failing input.  Run: `sendRequest("t1","Planner","p1")`
(swap to mistral.gguf on 8083), health gate fires, then the backend process on
8083 crashes (exit code 1).  The controller clears its own private
`m_activeModelName`/`m_activeModelPort` and removes the registry entry, but the
scheduler's (`ModelManager`'s) `m_activeModelName` is still "mistral.gguf", so
the next `sendRequest` for a Planner-role request dispatches immediately to the
dead port 8083 — no stop/start/health-check swap sequence is initiated. -/
theorem C1_code_bug :
    (runMM initMM [MMStep.call "t1" "Planner" "p1", MMStep.ready,
        MMStep.exited 8083 1 true]).1.activeModelName = "mistral.gguf" ∧
    (runMM initMM [MMStep.call "t1" "Planner" "p1", MMStep.ready,
        MMStep.exited 8083 1 true]).1.lsc.activeModelName = "" ∧
    portLookup (runMM initMM [MMStep.call "t1" "Planner" "p1", MMStep.ready,
        MMStep.exited 8083 1 true]).1.lsc.activeServers 8083 = none ∧
    (sendRequest (runMM initMM [MMStep.call "t1" "Planner" "p1", MMStep.ready,
        MMStep.exited 8083 1 true]).1 "t2" "Planner" "p2").2 =
      [MMEvent.networkSend 0 "t2" "Planner" "p2" "mistral.gguf" 8083] ∧
    (sendRequest (runMM initMM [MMStep.call "t1" "Planner" "p1", MMStep.ready,
        MMStep.exited 8083 1 true]).1 "t2" "Planner" "p2").1 =
      (runMM initMM [MMStep.call "t1" "Planner" "p1", MMStep.ready,
        MMStep.exited 8083 1 true]).1 := by
  refine ⟨by decide, by decide, by decide, by decide, by decide⟩

/-! ## Claim C2: which port the swap terminates -/

/-- Looking up a port other than the removed one is unchanged by `portRemove`. -/
theorem portLookup_portRemove_ne (m : List (Int × SProc)) (p q : Int) (h : p ≠ q) :
    portLookup (portRemove m q) p = portLookup m p := by
  induction m with
  | nil => rfl
  | cons hd tl ih =>
      obtain ⟨k, v⟩ := hd
      by_cases hk : k = q
      · subst hk
        have h1 : portRemove ((k, v) :: tl) k = portRemove tl k := by
          simp [portRemove]
        rw [h1, ih]
        simp only [portLookup]
        rw [if_neg (fun hc => h hc.symm)]
      · simp only [portRemove, if_neg hk, portLookup]
        by_cases hp : k = p
        · rw [if_pos hp, if_pos hp]
        · rw [if_neg hp, if_neg hp, ih]

/-- `stopServer` only ever kills the process on the port it was given. -/
theorem stopServer_kill_ports (s : LSCState) (port p : Int) (m : String)
    (h : LSCEvent.procKill p m ∈ (stopServer s port).2) : p = port := by
  unfold stopServer at h
  cases hh : portLookup s.activeServers port with
  | none => rw [hh] at h; simp at h
  | some v =>
      rw [hh] at h
      by_cases ha : v.alive
      · simp [ha] at h
        exact h.1
      · simp [ha] at h

/-- `startServer` never kills anything. -/
theorem startServer_no_kill (s : LSCState) (model : String) (port p : Int) (m : String) :
    LSCEvent.procKill p m ∉ (startServer s model port).2 := by
  unfold startServer
  split <;> simp

/-- `stopServer` on one port leaves the registry lookup of any other port
unchanged. -/
theorem stopServer_lookup_ne (s : LSCState) (q p : Int) (h : p ≠ q) :
    portLookup (stopServer s q).1.activeServers p = portLookup s.activeServers p := by
  unfold stopServer
  cases hh : portLookup s.activeServers q with
  | none => rfl
  | some v => simpa using portLookup_portRemove_ne s.activeServers p q h

/-- The state reached by `startAllServers` launching "Phimini" on port 8080
before any `sendRequest` (the scheduler itself still fresh). -/
def c2State : MMState :=
  { initMM with lsc := (startServer emptyLSC "Phimini" 8080).1 }

/-- C2, counterexample: with port 8080 occupied by the "Phimini" process (as
`startAllServers` leaves it) and no model active in the scheduler,
`sendRequest("t1","Researcher","p1")` must swap to Phimini.gguf on target port
8080.  The swap kills nothing (it stops the *active* port, 0), the target
port's occupant survives untouched, and the start of the required model is
rejected with a `serverError` — the claim's "terminate the occupant of the
target port before starting" does not happen. -/
theorem C2_counterexample :
    (sendRequest c2State "t1" "Researcher" "p1").2 =
      [MMEvent.lsc (LSCEvent.serverError "Cannot start: port is already in use."),
        MMEvent.healthCheckStart 8080] ∧
    portLookup (sendRequest c2State "t1" "Researcher" "p1").1.lsc.activeServers 8080 =
      some { model := "Phimini", alive := true } := by
  refine ⟨by decide, by decide⟩

/-- C2, amended: when `sendRequest` initiates a swap (controller present, no
swap in progress, required model differs from the active model), it terminates
only whatever occupies the *currently active* model's port — every kill it
emits is on `m_activeModelPort` — then marks the required model/port active,
attempts to start the required model on the target port, and registers the
health check for the target port.  It does not terminate the occupant of the
target port: if that port (different from the active one) is occupied, its
registry entry is exactly the same after the call as before. -/
theorem C2_amended (s : MMState) (taskId role prompt : String)
    (hc : s.hasServerController = true)
    (hsw : s.isCurrentlySwapping = false)
    (hdiff : s.activeModelName ≠ getModelForRole role) :
    (∀ p m, MMEvent.lsc (LSCEvent.procKill p m) ∈ (sendRequest s taskId role prompt).2 →
      p = s.activeModelPort) ∧
    MMEvent.healthCheckStart (portForModel (getModelForRole role)) ∈
      (sendRequest s taskId role prompt).2 ∧
    (sendRequest s taskId role prompt).1.activeModelName = getModelForRole role ∧
    (sendRequest s taskId role prompt).1.activeModelPort = portForModel (getModelForRole role) ∧
    (portForModel (getModelForRole role) ≠ s.activeModelPort →
      (portLookup s.lsc.activeServers (portForModel (getModelForRole role))).isSome = true →
      portLookup (sendRequest s taskId role prompt).1.lsc.activeServers
          (portForModel (getModelForRole role)) =
        portLookup s.lsc.activeServers (portForModel (getModelForRole role))) := by
  have hcond : ¬(s.activeModelName = getModelForRole role ∧ s.isCurrentlySwapping = false) :=
    fun hx => hdiff hx.1
  have hmain : sendRequest s taskId role prompt =
      Prod.mk
        { s with
            pendingRequests := s.pendingRequests ++
              [⟨taskId, role, prompt, getModelForRole role,
                portForModel (getModelForRole role)⟩]
            isCurrentlySwapping := true
            activeModelName := getModelForRole role
            activeModelPort := portForModel (getModelForRole role)
            lsc := (startServer (stopServer s.lsc s.activeModelPort).1 (getModelForRole role)
              (portForModel (getModelForRole role))).1 }
        ((stopServer s.lsc s.activeModelPort).2.map MMEvent.lsc ++
          (startServer (stopServer s.lsc s.activeModelPort).1 (getModelForRole role)
            (portForModel (getModelForRole role))).2.map MMEvent.lsc ++
          [MMEvent.healthCheckStart (portForModel (getModelForRole role))]) := by
    unfold sendRequest
    rw [if_neg (by simp [hc]), if_neg hcond]
    simp [hsw]
  rw [hmain]
  refine ⟨?_, ?_, rfl, rfl, ?_⟩
  · intro p m hmem
    simp only [List.mem_append, List.mem_map, List.mem_singleton] at hmem
    rcases hmem with (⟨e, he, heq⟩ | ⟨e, he, heq⟩) | hmem
    · cases heq
      exact stopServer_kill_ports s.lsc s.activeModelPort p m he
    · cases heq
      exact absurd he (startServer_no_kill _ _ _ _ _)
    · cases hmem
  · simp
  · intro hne hocc
    have hstop : portLookup (stopServer s.lsc s.activeModelPort).1.activeServers
        (portForModel (getModelForRole role)) =
        portLookup s.lsc.activeServers (portForModel (getModelForRole role)) :=
      stopServer_lookup_ne s.lsc s.activeModelPort (portForModel (getModelForRole role)) hne
    have hocc2 : (portLookup (stopServer s.lsc s.activeModelPort).1.activeServers
        (portForModel (getModelForRole role))).isSome = true := by
      rw [hstop]; exact hocc
    simp only [startServer, hocc2, if_pos]
    exact hstop

/-- C2, witness for the amended theorem: the `c2State` scenario (port 8080
occupied by "Phimini", Researcher role requiring Phimini.gguf on 8080). -/
theorem C2_amended_witness :
    (c2State.hasServerController = true ∧ c2State.isCurrentlySwapping = false ∧
      c2State.activeModelName ≠ getModelForRole "Researcher") ∧
    ((∀ p m, MMEvent.lsc (LSCEvent.procKill p m) ∈
        (sendRequest c2State "t1" "Researcher" "p1").2 → p = c2State.activeModelPort) ∧
      MMEvent.healthCheckStart (portForModel (getModelForRole "Researcher")) ∈
        (sendRequest c2State "t1" "Researcher" "p1").2 ∧
      (sendRequest c2State "t1" "Researcher" "p1").1.activeModelName =
        getModelForRole "Researcher" ∧
      (sendRequest c2State "t1" "Researcher" "p1").1.activeModelPort =
        portForModel (getModelForRole "Researcher") ∧
      (portForModel (getModelForRole "Researcher") ≠ c2State.activeModelPort →
        (portLookup c2State.lsc.activeServers
          (portForModel (getModelForRole "Researcher"))).isSome = true →
        portLookup (sendRequest c2State "t1" "Researcher" "p1").1.lsc.activeServers
            (portForModel (getModelForRole "Researcher")) =
          portLookup c2State.lsc.activeServers
            (portForModel (getModelForRole "Researcher")))) :=
  ⟨⟨by decide, by decide, by decide⟩,
    C2_amended c2State "t1" "Researcher" "p1" (by decide) (by decide) (by decide)⟩

/-! ## Claim C6: queue draining -/

/-- The dispatch events a drain emits for a block of matching requests, in
order, at stagger delays `st`, `st + 1500`, `st + 3000`, ... -/
def staggerEvents (st : Int) (reqs : List PendingRequest) : List MMEvent :=
  match reqs with
  | [] => []
  | r :: rest =>
      MMEvent.networkSend st r.taskId r.role r.prompt r.model r.port ::
        staggerEvents (st + 1500) rest

/-- Characterization of the drain loop: the requests whose model matches the
active model are dispatched in enqueue order at delays `st + 1500·i`; the
others are kept, in order; the final stagger is `st + 1500·(number dispatched)`. -/
theorem drainLoop_eq (active : String) (q : List PendingRequest) (st : Int) :
    drainLoop active q st =
      (q.filter (fun r => !decide (r.model = active)),
        st + 1500 * ((q.filter (fun r => decide (r.model = active))).length : Int),
        staggerEvents st (q.filter (fun r => decide (r.model = active)))) := by
  induction q generalizing st with
  | nil => simp [drainLoop, staggerEvents]
  | cons r rest ih =>
      by_cases h : r.model = active
      · simp only [drainLoop, if_pos h, ih, List.filter_cons, h]
        simp [staggerEvents]
        exact ⟨by ring, h.symm⟩
      · simp only [drainLoop, if_neg h, ih, List.filter_cons]
        simp [h]

/-- How many `sendNetworkRequest` dispatches a list of scheduler events holds
for a given task id. -/
def countSendsFor (evs : List MMEvent) (tid : String) : Nat :=
  (evs.filter (fun e =>
    match e with
    | MMEvent.networkSend _ t _ _ _ _ => decide (t = tid)
    | _ => false)).length

/-- C6, counterexample: run `sendRequest("t0","Coder",·)`, let the swap finish,
then `sendRequest("t1","Planner",·)` (starts a swap to mistral) and
`sendRequest("t2","Coder",·)` (queued behind the swap).  When the health gate
fires, the drain dispatches t1 and keeps t2; the deferred next-swap callback
then reads t2 from the head of the queue *without dequeuing it* and calls
`sendRequest` again, which enqueues a second copy of t2; after the next swap
completes, the drain dispatches both copies: t2 — submitted exactly once — is
dispatched twice, refuting "none is dispatched more than once". -/
theorem C6_counterexample :
    countSendsFor (runMM initMM [MMStep.call "t0" "Coder" "p0", MMStep.ready,
      MMStep.call "t1" "Planner" "p1", MMStep.call "t2" "Coder" "p2",
      MMStep.ready, MMStep.deferred, MMStep.ready]).2 "t2" = 2 ∧
    countSendsFor (runMM initMM [MMStep.call "t0" "Coder" "p0", MMStep.ready,
      MMStep.call "t1" "Planner" "p1", MMStep.call "t2" "Coder" "p2",
      MMStep.ready, MMStep.deferred, MMStep.ready]).2 "t1" = 1 ∧
    countSendsFor (runMM initMM [MMStep.call "t0" "Coder" "p0", MMStep.ready,
      MMStep.call "t1" "Planner" "p1", MMStep.call "t2" "Coder" "p2",
      MMStep.ready, MMStep.deferred, MMStep.ready]).2 "t0" = 1 := by
  refine ⟨by decide, by decide, by decide⟩

/-- C6, amended: within one drain of a non-empty pending queue, every queued
request whose model equals the active model is dispatched in enqueue order,
at stagger delays 100, 1600, 3100, ... ms (separated by 1500 ms); every other
request is kept in the queue in its original order (none dropped); if any
are kept, a deferred next-swap callback is scheduled (which triggers the next
swap cycle), and otherwise the swap flag is released.  However, across swap
cycles a kept request is NOT dispatched at most once: the deferred callback
re-submits the head of the kept queue without dequeuing it, so that request
is dispatched twice in the following drain (see the counterexample). -/
theorem C6_amended (s : MMState) (hne : s.pendingRequests ≠ []) :
    (processPendingRequestQueue s).1.pendingRequests =
      s.pendingRequests.filter (fun r => !decide (r.model = s.activeModelName)) ∧
    (processPendingRequestQueue s).2 =
      staggerEvents 100 (s.pendingRequests.filter (fun r => decide (r.model = s.activeModelName))) ++
        (if s.pendingRequests.filter (fun r => !decide (r.model = s.activeModelName)) = [] then
          []
        else
          [MMEvent.deferredSwapCheck (100 +
            1500 * ((s.pendingRequests.filter
              (fun r => decide (r.model = s.activeModelName))).length : Int) + 1000)]) ∧
    (s.pendingRequests.filter (fun r => !decide (r.model = s.activeModelName)) = [] →
      (processPendingRequestQueue s).1.isCurrentlySwapping = false) := by
  unfold processPendingRequestQueue
  rw [if_neg hne]
  rw [drainLoop_eq]
  by_cases hk : s.pendingRequests.filter (fun r => !decide (r.model = s.activeModelName)) = []
  · simp [hk]
  · simp [hk]

/-- A scheduler state mid-swap-cycle with mistral.gguf active and a mixed
pending queue, used to witness the drain characterization concretely. -/
def c6State : MMState :=
  { initMM with
      activeModelName := "mistral.gguf"
      pendingRequests := [⟨"a", "Planner", "pa", "mistral.gguf", 8083⟩,
        ⟨"b", "Coder", "pb", "qwencoder.gguf", 8081⟩] }

/-- C6, witness for the amended theorem at a concrete mixed queue. -/
theorem C6_amended_witness :
    c6State.pendingRequests ≠ [] ∧
    ((processPendingRequestQueue c6State).1.pendingRequests =
        [⟨"b", "Coder", "pb", "qwencoder.gguf", 8081⟩] ∧
      (processPendingRequestQueue c6State).2 =
        [MMEvent.networkSend 100 "a" "Planner" "pa" "mistral.gguf" 8083,
          MMEvent.deferredSwapCheck 2600]) := by
  have h := C6_amended c6State (by decide)
  refine ⟨by decide, ?_, ?_⟩
  · rw [h.1]
    decide
  · rw [h.2.1]
    decide

/-! ## Claim C3: the inference retry loop -/

/-- The network-layer outcome of one HTTP attempt, as inspected via
`reply->error()` by the retry lambda in `ModelManager::sendNetworkRequest`. -/
inductive NetOutcome where
  | connectionRefused
  | remoteHostClosed
  | otherError (msg : String)
  | success (body : String)
  deriving DecidableEq, Repr

/-- Whether the outcome is one of the two transient classes the lambda
retries on (`ConnectionRefusedError`, `RemoteHostClosedError`). -/
def isTransient (o : NetOutcome) : Bool :=
  match o with
  | NetOutcome.connectionRefused => true
  | NetOutcome.remoteHostClosed => true
  | NetOutcome.otherError _ => false
  | NetOutcome.success _ => false

/-- The `QVariantMap requestData` assembled by `sendNetworkRequest`: exactly
the keys "role", "taskId" and "modelUsed" are set — no "retryCount" key is
ever written to it. -/
def buildRequestData (taskId role modelUsed : String) : List (String × String) :=
  [("role", role), ("taskId", taskId), ("modelUsed", modelUsed)]

/-- `int retries = requestData.value("retryCount", 0).toInt();` — the retry
count read back out of the request data, defaulting to 0 when the key is
absent. -/
def retriesOf (rd : List (String × String)) : Int :=
  match lookupStr rd "retryCount" with
  | some v => (v.toInt?).getD 0
  | none => 0

/-- The decision taken by the reply-finished lambda: schedule a 2000 ms retry
exactly when the error is transient and the captured `retries` is below 3. -/
def retryScheduled (retries : Int) (o : NetOutcome) : Bool :=
  isTransient o && decide (retries < 3)

/-- Number of HTTP attempts issued when the first `n` replies are all
`ConnectionRefusedError`: the initial attempt, plus one more each time the
reply lambda schedules a retry.  Each retry re-enters `sendNetworkRequest`
with the same five arguments, so its `retries` is recomputed from a freshly
built `requestData` (the comment "increment retry count manually" in the
source is not implemented by any write). -/
def attemptsAfterRefusals (taskId role modelUsed : String) : Nat → Nat
  | 0 => 1
  | n + 1 =>
      if retryScheduled (retriesOf (buildRequestData taskId role modelUsed))
          NetOutcome.connectionRefused then
        attemptsAfterRefusals taskId role modelUsed n + 1
      else
        attemptsAfterRefusals taskId role modelUsed n

/-- C3, code evaluated at the failing input: because `requestData` never
contains a "retryCount" key, the captured retry count is 0 on every attempt,
the guard `retries < 3` always passes, and after `n` consecutive
connection-refused replies the code has issued `n + 1` attempts — for every
`n`.  The retry loop therefore never stops on a persistently refusing
backend, contradicting the claimed at-most-3-retries bound. -/
theorem C3_code_bug (taskId role modelUsed : String) (n : Nat) :
    retriesOf (buildRequestData taskId role modelUsed) = 0 ∧
    retryScheduled (retriesOf (buildRequestData taskId role modelUsed))
      NetOutcome.connectionRefused = true ∧
    attemptsAfterRefusals taskId role modelUsed n = n + 1 := by
  have h0 : retriesOf (buildRequestData taskId role modelUsed) = 0 := rfl
  have h1 : retryScheduled (retriesOf (buildRequestData taskId role modelUsed))
      NetOutcome.connectionRefused = true := rfl
  refine ⟨h0, h1, ?_⟩
  induction n with
  | zero => rfl
  | succ k ih =>
      unfold attemptsAfterRefusals
      rw [if_pos h1, ih]

/-! ## Claim C10: role and port defaults -/

/-- C10: an unmapped role resolves to the default model "mistral.gguf"; an
unmapped model resolves to port 8080; and with a server controller attached,
`sendRequest` never emits `requestFailed` — an unrecognized role is scheduled
exactly like a mapped one. -/
theorem C10_defaults (role model : String) (s : MMState) (taskId prompt : String)
    (hrole : lookupStr roleToModelMap role = none)
    (hmodel : lookupStr modelToPortMap model = none)
    (hc : s.hasServerController = true) :
    getModelForRole role = "mistral.gguf" ∧
    portForModel model = 8080 ∧
    ∀ t r e, MMEvent.requestFailed t r e ∉ (sendRequest s taskId role prompt).2 := by
  refine ⟨?_, ?_, ?_⟩
  · simp [getModelForRole, hrole, defaultModel]
  · simp [portForModel, hmodel]
  · intro t r e
    unfold sendRequest
    rw [if_neg (by simp [hc])]
    by_cases h1 : s.activeModelName = getModelForRole role ∧ s.isCurrentlySwapping = false
    · rw [if_pos h1]
      simp
    · rw [if_neg h1]
      by_cases h2 : s.isCurrentlySwapping
      · simp [h2]
      · simp [h2]

/-- C10, witness: the concrete unmapped role "Unknown" and unmapped model
"ghost.gguf", from a fresh scheduler. -/
theorem C10_defaults_witness :
    (lookupStr roleToModelMap "Unknown" = none ∧
      lookupStr modelToPortMap "ghost.gguf" = none ∧
      initMM.hasServerController = true) ∧
    (getModelForRole "Unknown" = "mistral.gguf" ∧
      portForModel "ghost.gguf" = 8080 ∧
      ∀ t r e, MMEvent.requestFailed t r e ∉ (sendRequest initMM "tid" "Unknown" "pr").2) :=
  ⟨⟨by decide, by decide, by decide⟩,
    C10_defaults "Unknown" "ghost.gguf" initMM "tid" "pr" (by decide) (by decide) (by decide)⟩

/-! ## Workflow-graph executor: `ProjectWorkflow`

`m_tasks` is a `QMap<QString, WorkflowTask>` keyed by `task.id`; we model it
as the list of its entries.  QMap iterates in sorted key order; the list
models insertion structure instead, which only renames the (unspecified)
per-pass scan order — every property proved below is scan-order independent,
and the promotion decisions of a pass depend only on which ids are Complete,
which the pass never changes. -/

/-- `WorkflowTask::Status`. -/
inductive WStatus where
  | pending
  | ready
  | running
  | complete
  | failed
  deriving DecidableEq, Repr

/-- `struct WorkflowTask` (projectworkflow.h). -/
structure WorkflowTask where
  id : String
  role : String
  description : String
  dependencies : List String
  status : WStatus
  deriving DecidableEq, Repr

/-- `m_tasks.value(taskId)` / `m_tasks.contains(taskId)`: first entry with the
given id. -/
def tasksFind (ts : List WorkflowTask) (tid : String) : Option WorkflowTask :=
  match ts with
  | [] => none
  | u :: rest => if u.id = tid then some u else tasksFind rest tid

/-- `m_tasks.insert(task.id, task)`: replace the entry with the same id, or
add the task. -/
def tasksInsert (ts : List WorkflowTask) (t : WorkflowTask) : List WorkflowTask :=
  match ts with
  | [] => [t]
  | u :: rest => if u.id = t.id then t :: rest else u :: tasksInsert rest t

/-- `m_tasks[taskId].status = st`. -/
def tasksSetStatus (ts : List WorkflowTask) (tid : String) (st : WStatus) :
    List WorkflowTask :=
  ts.map (fun u => if u.id = tid then { u with status := st } else u)

/-- `m_tasks.contains(depId) && m_tasks.value(depId).status == Complete`,
against the live task map. -/
def isCompleteIn (ts : List WorkflowTask) (d : String) : Bool :=
  match tasksFind ts d with
  | some u => decide (u.status = WStatus.complete)
  | none => false

/-- The `allDepsMet` loop of `evaluateWorkflow`. -/
def allDepsMet (ts : List WorkflowTask) (deps : List String) : Bool :=
  deps.all (fun d => isCompleteIn ts d)

/-- A snapshot entry of `getPlanStateAsJson`: `{id, role, description,
status, dependencies}` with ids serialized back to ints. -/
structure SnapEntry where
  id : Int
  role : String
  description : String
  status : String
  dependencies : List Int
  deriving DecidableEq, Repr

/-- `QString::toInt()`: 0 when the string is not a valid integer. -/
def qstringToInt (s : String) : Int :=
  (s.toInt?).getD 0

/-- The status-to-string switch in `getPlanStateAsJson`. -/
def statusText (st : WStatus) : String :=
  match st with
  | WStatus.pending => "Pending"
  | WStatus.ready => "Ready"
  | WStatus.running => "Running"
  | WStatus.complete => "Complete"
  | WStatus.failed => "Failed"

/-- `ProjectWorkflow::getPlanStateAsJson`. -/
def getPlanStateAsJson (ts : List WorkflowTask) : List SnapEntry :=
  ts.map (fun t =>
    { id := qstringToInt t.id
      role := t.role
      description := t.description
      status := statusText t.status
      dependencies := t.dependencies.map qstringToInt })

/-- Signals emitted by `ProjectWorkflow` (the `workflowMessage` strings of the
dispatch loop are omitted; `message` is kept for the plan-rejection paths). -/
inductive WFEvent where
  | message (msg : String)
  | assignTask (taskId role description : String)
  | finished (msg : String)
  | escalate (failedTaskId reason : String) (planState : List SnapEntry)
  deriving DecidableEq, Repr

/-- State of `ProjectWorkflow`: the task map and `m_isRunning`. -/
structure WFState where
  tasks : List WorkflowTask
  isRunning : Bool
  deriving DecidableEq, Repr

/-- One pass of the do-while loop in `ProjectWorkflow::evaluateWorkflow`,
iterating over the live task map: a Pending task whose dependencies are all
Complete (checked against the map as mutated so far) becomes Ready, and any
Ready task is immediately dispatched — marked Running with an
`assignTaskToAgent` emission.  `done` is the already-visited prefix. -/
def evaluatePass (done todo : List WorkflowTask) (disp : Bool) (evs : List WFEvent) :
    List WorkflowTask × Bool × List WFEvent :=
  match todo with
  | [] => (done, disp, evs)
  | t :: rest =>
      let t1 := if t.status = WStatus.pending ∧
          allDepsMet (done ++ t :: rest) t.dependencies = true then
        { t with status := WStatus.ready }
      else t
      if t1.status = WStatus.ready then
        evaluatePass (done ++ [{ t1 with status := WStatus.running }]) rest true
          (evs ++ [WFEvent.assignTask t1.id t1.role t1.description])
      else
        evaluatePass (done ++ [t1]) rest disp evs

/-- The do-while loop: repeat the pass while it dispatched something.  The
fuel bounds the number of passes; two always suffice (`evalLoop_eq`), so
`tasks.length + 2` fuel is never exhausted. -/
def evalLoop (fuel : Nat) (ts : List WorkflowTask) (evs : List WFEvent) :
    List WorkflowTask × List WFEvent :=
  match fuel with
  | 0 => (ts, evs)
  | f + 1 =>
      let r := evaluatePass [] ts false evs
      if r.2.1 then evalLoop f r.1 r.2.2 else (r.1, r.2.2)

/-- `ProjectWorkflow::evaluateWorkflow`: run the dispatch loop to its
fixpoint, then — if the task set is non-empty and every task is Complete —
emit `workflowFinished`, clear the plan and stop running. -/
def evaluateWorkflow (s : WFState) : WFState × List WFEvent :=
  let r := evalLoop (s.tasks.length + 2) s.tasks []
  if (r.1.all fun t => decide (t.status = WStatus.complete)) = true ∧ r.1 ≠ [] then
    ({ tasks := [], isRunning := false }, r.2 ++ [WFEvent.finished "All tasks complete."])
  else
    ({ s with tasks := r.1 }, r.2)

/-- `ProjectWorkflow::taskFinished`: ignore unknown or already-Complete ids;
otherwise mark Complete and re-evaluate. -/
def taskFinished (s : WFState) (taskId : String) : WFState × List WFEvent :=
  match tasksFind s.tasks taskId with
  | none => (s, [])
  | some t =>
      if t.status = WStatus.complete then (s, [])
      else evaluateWorkflow { s with tasks := tasksSetStatus s.tasks taskId WStatus.complete }

/-- `ProjectWorkflow::taskFailed`: ignore unknown ids; otherwise mark Failed,
escalate with the serialized plan snapshot, and stop running. -/
def taskFailed (s : WFState) (taskId reason : String) : WFState × List WFEvent :=
  match tasksFind s.tasks taskId with
  | none => (s, [])
  | some _ =>
      let ts1 := tasksSetStatus s.tasks taskId WStatus.failed
      ({ tasks := ts1, isRunning := false },
        [WFEvent.escalate taskId reason (getPlanStateAsJson ts1)])

/-- A well-formed entry of the `plan` JSON array: the four required keys
(`id`, `role`, `description`, `dependencies`), with `id` and the dependency
ids as ints (`ProjectWorkflow::parsePlan` converts them with
`QString::number(·.toInt())`). -/
structure PlanEntry where
  id : Int
  role : String
  description : String
  deps : List Int
  deriving DecidableEq, Repr

/-- `QSet<QString>::insert` on the dependency set, kept as a duplicate-free
list in insertion order. -/
def depsInsert (xs : List String) (x : String) : List String :=
  if x ∈ xs then xs else xs ++ [x]

/-- The dependency-set construction of `parsePlan`. -/
def buildDeps (deps : List Int) : List String :=
  deps.foldl (fun acc d => depsInsert acc (toString d)) []

/-- `ProjectWorkflow::parsePlan`: entries missing one of the required keys
(modelled as `none`) are skipped; a well-formed entry becomes a task — Ready
when its dependency array is empty, Pending otherwise — inserted into the
task map (replacing any task with the same id). -/
def parsePlan (entries : List (Option PlanEntry)) (ts : List WorkflowTask) :
    List WorkflowTask :=
  match entries with
  | [] => ts
  | none :: rest => parsePlan rest ts
  | some e :: rest =>
      let task : WorkflowTask :=
        { id := toString e.id
          role := e.role
          description := e.description
          dependencies := buildDeps e.deps
          status := if e.deps = [] then WStatus.ready else WStatus.pending }
      parsePlan rest (tasksInsert ts task)

/-- The plan text handed to `startWorkflowFromPlan`, after
`QJsonDocument::fromJson`: either not a JSON object at all, or an object
which may or may not carry a `plan` array. -/
inductive PlanDoc where
  | invalidJson
  | jsonObject (plan : Option (List (Option PlanEntry)))
  deriving DecidableEq, Repr

/-- The tasks a plan document yields when parsed into an empty map. -/
def planTasksOf (doc : PlanDoc) : List WorkflowTask :=
  match doc with
  | PlanDoc.invalidJson => []
  | PlanDoc.jsonObject none => []
  | PlanDoc.jsonObject (some arr) => parsePlan arr []

/-- `ProjectWorkflow::startWorkflowFromPlan`: clear `m_tasks` first; reject
non-JSON input; parse the `plan` array if present; if tasks resulted, set
`m_isRunning` and kick off the first evaluation, otherwise reject. -/
def startWorkflowFromPlan (s : WFState) (doc : PlanDoc) : WFState × List WFEvent :=
  let s1 := { s with tasks := ([] : List WorkflowTask) }
  match doc with
  | PlanDoc.invalidJson =>
      (s1, [WFEvent.message "Plan was not valid JSON. Workflow stopped."])
  | PlanDoc.jsonObject planArr =>
      let s2 := match planArr with
        | some arr => { s1 with tasks := parsePlan arr [] }
        | none => s1
      if s2.tasks ≠ [] then
        evaluateWorkflow { s2 with isRunning := true }
      else
        (s2, [WFEvent.message "Plan was empty or in an invalid format. Workflow stopped."])

/-- The `modification` JSON object accepted by `applyPlanModification`:
optional `add_tasks` (plan-shaped) and `retry_tasks` (int task ids). -/
structure PlanModification where
  addTasks : Option (List (Option PlanEntry))
  retryTasks : Option (List Int)
  deriving DecidableEq, Repr

/-- The `retry_tasks` loop: each listed id that exists is reset to Pending. -/
def applyRetries (ts : List WorkflowTask) (ids : List Int) : List WorkflowTask :=
  match ids with
  | [] => ts
  | i :: rest =>
      if (tasksFind ts (toString i)).isSome then
        applyRetries (tasksSetStatus ts (toString i) WStatus.pending) rest
      else
        applyRetries ts rest

/-- `ProjectWorkflow::applyPlanModification`: merge `add_tasks` via
`parsePlan`, reset each existing `retry_tasks` id to Pending, then set
`m_isRunning` and resume the dispatch loop. -/
def applyPlanModification (s : WFState) (m : PlanModification) : WFState × List WFEvent :=
  let ts1 := match m.addTasks with
    | some arr => parsePlan arr s.tasks
    | none => s.tasks
  let ts2 := match m.retryTasks with
    | some ids => applyRetries ts1 ids
    | none => ts1
  evaluateWorkflow { tasks := ts2, isRunning := true }

/-! Driver for the completion claim: an external harness that reports success
(`taskFinished`) for some Running task until none is left. -/

/-- The first Running task of the map, if any. -/
def firstRunning (ts : List WorkflowTask) : Option WorkflowTask :=
  match ts with
  | [] => none
  | t :: rest => if t.status = WStatus.running then some t else firstRunning rest

/-- Repeatedly report success for a Running task, accumulating events. -/
def runToCompletion (fuel : Nat) (s : WFState) : WFState × List WFEvent :=
  match fuel with
  | 0 => (s, [])
  | f + 1 =>
      match firstRunning s.tasks with
      | none => (s, [])
      | some t =>
          let r := taskFinished s t.id
          let r2 := runToCompletion f r.1
          (r2.1, r.2 ++ r2.2)

/-- Load a (pre-parsed) plan the way `startWorkflowFromPlan`'s success branch
does, then drive it to completion with success reports. -/
def runWorkflow (ts0 : List WorkflowTask) : WFState × List WFEvent :=
  let r0 := evaluateWorkflow { tasks := ts0, isRunning := true }
  let r1 := runToCompletion ts0.length r0.1
  (r1.1, r0.2 ++ r1.2)

/-- How many `assignTaskToAgent` emissions a list of events holds for a given
task id. -/
def assignCount (evs : List WFEvent) (tid : String) : Nat :=
  (evs.filter (fun e =>
    match e with
    | WFEvent.assignTask i _ _ => decide (i = tid)
    | _ => false)).length

/-- How many `workflowFinished` emissions a list of events holds. -/
def finishedCount (evs : List WFEvent) : Nat :=
  (evs.filter (fun e =>
    match e with
    | WFEvent.finished _ => true
    | _ => false)).length

/-! ## Claim C9: rejected plans and state mutation -/

/-- A workflow that has loaded a valid one-task plan and dispatched it: the
prior state for the rejection counterexample. -/
def c9State : WFState :=
  (startWorkflowFromPlan ⟨[], false⟩
    (PlanDoc.jsonObject (some [some ⟨1, "Coder", "d", []⟩]))).1

/-- C9, counterexample: with a loaded plan in progress (one Running task),
passing invalid JSON to `startWorkflowFromPlan` is rejected — but the task
map is cleared at the top of the call, before validation, so the executor's
task map after the rejected call differs from before it. -/
theorem C9_counterexample :
    c9State.tasks = [⟨"1", "Coder", "d", [], WStatus.running⟩] ∧
    (startWorkflowFromPlan c9State PlanDoc.invalidJson).1.tasks = [] ∧
    (startWorkflowFromPlan c9State PlanDoc.invalidJson).1.tasks ≠ c9State.tasks := by
  refine ⟨by decide, by decide, by decide⟩

/-- C9, amended: a plan input that is not valid JSON or yields no valid tasks
is rejected immediately — no tasks are added, nothing is dispatched, and the
running flag is unchanged — but the existing task map is unconditionally
cleared at the start of the call; so the state is fully unchanged only when
the task map was already empty. -/
theorem C9_amended (s : WFState) (doc : PlanDoc) (hrej : planTasksOf doc = []) :
    (startWorkflowFromPlan s doc).1.tasks = [] ∧
    (startWorkflowFromPlan s doc).1.isRunning = s.isRunning ∧
    (∀ a b c, WFEvent.assignTask a b c ∉ (startWorkflowFromPlan s doc).2) ∧
    (s.tasks = [] → (startWorkflowFromPlan s doc).1 = s) := by
  obtain ⟨ts, ir⟩ := s
  cases doc with
  | invalidJson =>
      refine ⟨rfl, rfl, ?_, ?_⟩
      · intro a b c
        simp [startWorkflowFromPlan]
      · intro h
        simp only at h
        subst h
        rfl
  | jsonObject planArr =>
      cases planArr with
      | none =>
          refine ⟨by simp [startWorkflowFromPlan], by simp [startWorkflowFromPlan], ?_, ?_⟩
          · intro a b c
            simp [startWorkflowFromPlan]
          · intro h
            simp only at h
            subst h
            simp [startWorkflowFromPlan]
      | some arr =>
          have harr : parsePlan arr [] = [] := hrej
          refine ⟨by simp [startWorkflowFromPlan, harr],
            by simp [startWorkflowFromPlan, harr], ?_, ?_⟩
          · intro a b c
            simp [startWorkflowFromPlan, harr]
          · intro h
            simp only at h
            subst h
            simp [startWorkflowFromPlan, harr]

/-- C9, witness for the amended theorem: invalid JSON against the loaded
workflow `c9State`. -/
theorem C9_amended_witness :
    planTasksOf PlanDoc.invalidJson = [] ∧
    ((startWorkflowFromPlan c9State PlanDoc.invalidJson).1.tasks = [] ∧
      (startWorkflowFromPlan c9State PlanDoc.invalidJson).1.isRunning = c9State.isRunning ∧
      (∀ a b c, WFEvent.assignTask a b c ∉ (startWorkflowFromPlan c9State PlanDoc.invalidJson).2) ∧
      (c9State.tasks = [] → (startWorkflowFromPlan c9State PlanDoc.invalidJson).1 = c9State)) :=
  ⟨by decide, C9_amended c9State PlanDoc.invalidJson (by decide)⟩

/-! ## Claim C8: failure escalation and retry -/

/-- `tasksFind` commutes with an id-preserving map of the task list. -/
theorem tasksFind_map (f : WorkflowTask → WorkflowTask)
    (hf : ∀ u, (f u).id = u.id) (ts : List WorkflowTask) (tid : String) :
    tasksFind (ts.map f) tid = (tasksFind ts tid).map f := by
  induction ts with
  | nil => rfl
  | cons u rest ih =>
      by_cases h : u.id = tid
      · simp [tasksFind, hf, h]
      · simp [tasksFind, hf, h, ih]

/-- `tasksFind` only returns a task whose id is the one looked up. -/
theorem tasksFind_id (ts : List WorkflowTask) (tid : String) (t : WorkflowTask)
    (h : tasksFind ts tid = some t) : t.id = tid := by
  induction ts with
  | nil => cases h
  | cons u rest ih =>
      by_cases hu : u.id = tid
      · simp only [tasksFind, if_pos hu] at h
        cases h
        exact hu
      · simp only [tasksFind, if_neg hu] at h
        exact ih h

/-- The status update of `tasksSetStatus` preserves the task id. -/
theorem setStatusFn_id (tid : String) (st : WStatus) (u : WorkflowTask) :
    ((fun u => if u.id = tid then { u with status := st } else u) u).id = u.id := by
  by_cases h : u.id = tid <;> simp [h]

/-- Setting the same task's status twice keeps only the second write. -/
theorem tasksSetStatus_twice (ts : List WorkflowTask) (tid : String) (a b : WStatus) :
    tasksSetStatus (tasksSetStatus ts tid a) tid b = tasksSetStatus ts tid b := by
  induction ts with
  | nil => rfl
  | cons u rest ih =>
      simp only [tasksSetStatus, List.map_cons] at ih ⊢
      by_cases h : u.id = tid
      · simp [h, ih]
      · simp [h, ih]

/-- The snapshot of the task map after setting one task's status: every
task's id/role/description/dependencies appear unchanged, and every status
other than the updated task's is serialized unchanged. -/
theorem snapshot_setStatus (ts : List WorkflowTask) (tid : String) (st : WStatus) :
    getPlanStateAsJson (tasksSetStatus ts tid st) =
      ts.map (fun u =>
        { id := qstringToInt u.id
          role := u.role
          description := u.description
          status := statusText (if u.id = tid then st else u.status)
          dependencies := u.dependencies.map qstringToInt }) := by
  induction ts with
  | nil => rfl
  | cons u rest ih =>
      simp only [getPlanStateAsJson, tasksSetStatus, List.map_cons] at ih ⊢
      by_cases h : u.id = tid
      · simp [h, ih]
      · simp [h, ih]

/-- C8: reporting failure for a known task id sets only that task's status
(to Failed), stops the running flag (no further automatic dispatch — the
call dispatches nothing), and emits a single escalation carrying the failing
id, the reason, and the serialized snapshot of every task's
id/role/description/status/dependencies in which every task other than the
failed one keeps its status.  Applying a correction whose `retry_tasks`
contains that id then resets exactly that task to Pending, sets the running
flag and re-runs the dispatch loop. -/
theorem C8_failure_escalation (s : WFState) (tid reason : String) (i : Int)
    (t : WorkflowTask) (h : tasksFind s.tasks tid = some t) (hi : toString i = tid) :
    (taskFailed s tid reason).1.isRunning = false ∧
    (taskFailed s tid reason).1.tasks = tasksSetStatus s.tasks tid WStatus.failed ∧
    (taskFailed s tid reason).2 = [WFEvent.escalate tid reason (s.tasks.map (fun u =>
      { id := qstringToInt u.id
        role := u.role
        description := u.description
        status := statusText (if u.id = tid then WStatus.failed else u.status)
        dependencies := u.dependencies.map qstringToInt }))] ∧
    (∀ a b c, WFEvent.assignTask a b c ∉ (taskFailed s tid reason).2) ∧
    applyPlanModification (taskFailed s tid reason).1 ⟨none, some [i]⟩ =
      evaluateWorkflow ⟨tasksSetStatus s.tasks tid WStatus.pending, true⟩ := by
  have hfail : taskFailed s tid reason =
      ({ tasks := tasksSetStatus s.tasks tid WStatus.failed, isRunning := false },
        [WFEvent.escalate tid reason
          (getPlanStateAsJson (tasksSetStatus s.tasks tid WStatus.failed))]) := by
    unfold taskFailed
    rw [h]
  refine ⟨by rw [hfail], by rw [hfail], ?_, ?_, ?_⟩
  · rw [hfail]
    rw [snapshot_setStatus]
  · intro a b c
    rw [hfail]
    simp
  · rw [hfail]
    have hfind : tasksFind (tasksSetStatus s.tasks tid WStatus.failed) tid =
        some { t with status := WStatus.failed } := by
      unfold tasksSetStatus
      rw [tasksFind_map _ (setStatusFn_id tid WStatus.failed) s.tasks tid, h]
      simp [tasksFind_id s.tasks tid t h]
    simp only [applyPlanModification, applyRetries, hi, hfind, Option.isSome_some, if_true]
    rw [tasksSetStatus_twice]

/-- C8, witness: a two-task plan state where task "2" is Running, fails with
reason "boom", and is then retried via `retry_tasks: [2]`. -/
theorem C8_failure_escalation_witness :
    tasksFind ([⟨"1", "A", "d1", [], WStatus.complete⟩,
        ⟨"2", "B", "d2", ["1"], WStatus.running⟩] : List WorkflowTask) "2" =
      some ⟨"2", "B", "d2", ["1"], WStatus.running⟩ ∧
    toString (2 : Int) = "2" ∧
    ((taskFailed ⟨[⟨"1", "A", "d1", [], WStatus.complete⟩,
        ⟨"2", "B", "d2", ["1"], WStatus.running⟩], true⟩ "2" "boom").1.isRunning = false ∧
      (taskFailed ⟨[⟨"1", "A", "d1", [], WStatus.complete⟩,
        ⟨"2", "B", "d2", ["1"], WStatus.running⟩], true⟩ "2" "boom").1.tasks =
        tasksSetStatus [⟨"1", "A", "d1", [], WStatus.complete⟩,
          ⟨"2", "B", "d2", ["1"], WStatus.running⟩] "2" WStatus.failed ∧
      (taskFailed ⟨[⟨"1", "A", "d1", [], WStatus.complete⟩,
        ⟨"2", "B", "d2", ["1"], WStatus.running⟩], true⟩ "2" "boom").2 =
        [WFEvent.escalate "2" "boom"
          (([⟨"1", "A", "d1", [], WStatus.complete⟩,
            ⟨"2", "B", "d2", ["1"], WStatus.running⟩] : List WorkflowTask).map (fun u =>
          { id := qstringToInt u.id
            role := u.role
            description := u.description
            status := statusText (if u.id = "2" then WStatus.failed else u.status)
            dependencies := u.dependencies.map qstringToInt }))] ∧
      (∀ a b c, WFEvent.assignTask a b c ∉ (taskFailed ⟨[⟨"1", "A", "d1", [], WStatus.complete⟩,
        ⟨"2", "B", "d2", ["1"], WStatus.running⟩], true⟩ "2" "boom").2) ∧
      applyPlanModification (taskFailed ⟨[⟨"1", "A", "d1", [], WStatus.complete⟩,
          ⟨"2", "B", "d2", ["1"], WStatus.running⟩], true⟩ "2" "boom").1 ⟨none, some [2]⟩ =
        evaluateWorkflow ⟨tasksSetStatus [⟨"1", "A", "d1", [], WStatus.complete⟩,
          ⟨"2", "B", "d2", ["1"], WStatus.running⟩] "2" WStatus.pending, true⟩) :=
  ⟨by decide, by decide,
    C8_failure_escalation ⟨[⟨"1", "A", "d1", [], WStatus.complete⟩,
        ⟨"2", "B", "d2", ["1"], WStatus.running⟩], true⟩ "2" "boom" 2
      ⟨"2", "B", "d2", ["1"], WStatus.running⟩ (by decide) (by decide)⟩

/-! ## Health-check poller (the `startHealthCheck` handler in `MainWindow`)

One registration creates a 2-second poll timer and a shared
`alreadyTriggered` flag; each tick issues a GET on `/health`, and each
reply-finished callback checks the flag, evaluates readiness, and on the
first ready reply sets the flag, stops the timer and invokes the `onReady`
continuation.  Qt delivers all these callbacks sequentially on the single
event loop (spec §5), so "concurrent" duplicate replies arrive as some
serialized list. -/

/-- One `/health` reply as the poller's lambda sees it: `reply->error()`
(collapsed to whether an error occurred), the body, and the HTTP status
attribute. -/
structure ProbeReply where
  hasError : Bool
  body : String
  statusCode : Int
  deriving DecidableEq, Repr

/-- Whether `pat` starts the character list `s`. -/
def leadMatch : List Char → List Char → Bool
  | [], _ => true
  | _ :: _, [] => false
  | p :: ps, c :: cs => p == c && leadMatch ps cs

/-- Whether `pat` occurs somewhere in the character list `s`
(`QString::contains`). -/
def occursIn (pat s : List Char) : Bool :=
  match s with
  | [] => leadMatch pat []
  | _ :: rest => leadMatch pat s || occursIn pat rest

/-- ASCII lower-casing of one character (`QString::toLower` on the ASCII
bodies the `/health` endpoint produces). -/
def lowerChar (c : Char) : Char :=
  if 65 ≤ c.toNat ∧ c.toNat ≤ 90 then Char.ofNat (c.toNat + 32) else c

/-- The readiness test of the reply handler: no network error, and the
lower-cased body contains "ok" or the HTTP status is 200. -/
def replyIndicatesReady (r : ProbeReply) : Bool :=
  !r.hasError && (occursIn "ok".data (r.body.data.map lowerChar) || r.statusCode == 200)

/-- Per-registration poller state: the shared `alreadyTriggered` guard, the
poll timer, and how many times the `onReady` continuation has run. -/
structure GateState where
  alreadyTriggered : Bool
  timerActive : Bool
  fires : Nat
  deriving DecidableEq, Repr

/-- The state created by one `startHealthCheck` registration. -/
def initGate : GateState :=
  { alreadyTriggered := false, timerActive := true, fires := 0 }

/-- The reply-finished callback: bail out if already triggered; on a ready
reply set the guard, stop and discard the timer, and run `onReady` (counted
in `fires`); otherwise keep polling. -/
def handleProbeReply (st : GateState) (r : ProbeReply) : GateState :=
  if st.alreadyTriggered then st
  else if replyIndicatesReady r then
    { alreadyTriggered := true, timerActive := false, fires := st.fires + 1 }
  else st

/-- Process a serialized sequence of probe replies for one registration. -/
def handleProbeReplies (st : GateState) (rs : List ProbeReply) : GateState :=
  rs.foldl handleProbeReply st

/-- Once the guard is set, further replies change nothing. -/
theorem handleProbeReplies_triggered (rs : List ProbeReply) (st : GateState)
    (h : st.alreadyTriggered = true) : handleProbeReplies st rs = st := by
  induction rs with
  | nil => rfl
  | cons r rest ih =>
      have hr : handleProbeReply st r = st := by
        simp [handleProbeReply, h]
      simp only [handleProbeReplies, List.foldl_cons, hr]
      exact ih

/-- From a fresh registration, the continuation runs once when some reply is
ready, and zero times otherwise. -/
theorem handleProbeReplies_fires (rs : List ProbeReply) (st : GateState)
    (h1 : st.alreadyTriggered = false) (h2 : st.fires = 0) :
    (handleProbeReplies st rs).fires =
      (if ∃ r ∈ rs, replyIndicatesReady r = true then 1 else 0) := by
  induction rs generalizing st with
  | nil => simp [handleProbeReplies, h2]
  | cons r rest ih =>
      by_cases hr : replyIndicatesReady r = true
      · have hstep : handleProbeReply st r =
            { alreadyTriggered := true, timerActive := false, fires := st.fires + 1 } := by
          simp [handleProbeReply, h1, hr]
        simp only [handleProbeReplies, List.foldl_cons, hstep]
        rw [show List.foldl handleProbeReply
            ({ alreadyTriggered := true, timerActive := false, fires := st.fires + 1 } : GateState)
            rest = handleProbeReplies
            { alreadyTriggered := true, timerActive := false, fires := st.fires + 1 } rest from rfl]
        rw [handleProbeReplies_triggered rest _ rfl]
        simp [h2, hr]
      · have hstep : handleProbeReply st r = st := by
          simp [handleProbeReply, h1, hr]
        simp only [handleProbeReplies, List.foldl_cons, hstep]
        rw [show List.foldl handleProbeReply st rest = handleProbeReplies st rest from rfl]
        rw [ih st h1 h2]
        simp [hr]

/-- C5: for one health-check registration, the `onReady` continuation never
runs more than once, whatever serialized sequence of probe replies arrives;
and as soon as the sequence contains a ready reply it runs exactly once —
the shared `alreadyTriggered` guard makes a second invocation impossible. -/
theorem C5_onReady_exactly_once (rs : List ProbeReply) :
    (handleProbeReplies initGate rs).fires ≤ 1 ∧
    ((∃ r ∈ rs, replyIndicatesReady r = true) →
      (handleProbeReplies initGate rs).fires = 1) := by
  have h := handleProbeReplies_fires rs initGate rfl rfl
  constructor
  · rw [h]
    by_cases he : ∃ r ∈ rs, replyIndicatesReady r = true
    · simp [he]
    · simp [he]
  · intro he
    rw [h, if_pos he]

/-- C5, witness: two duplicate ready replies (HTTP 200) arriving for the same
registration still fire the continuation exactly once. -/
theorem C5_onReady_exactly_once_witness :
    (∃ r ∈ [(⟨false, "", 200⟩ : ProbeReply), ⟨false, "", 200⟩],
      replyIndicatesReady r = true) ∧
    ((handleProbeReplies initGate [⟨false, "", 200⟩, ⟨false, "", 200⟩]).fires ≤ 1 ∧
      ((∃ r ∈ [(⟨false, "", 200⟩ : ProbeReply), ⟨false, "", 200⟩],
        replyIndicatesReady r = true) →
        (handleProbeReplies initGate [⟨false, "", 200⟩, ⟨false, "", 200⟩]).fires = 1)) :=
  ⟨⟨⟨false, "", 200⟩, by decide⟩,
    C5_onReady_exactly_once [⟨false, "", 200⟩, ⟨false, "", 200⟩]⟩

/-! ## Claim C4: dispatch fixpoint and plan completion

The pass of `evaluateWorkflow` consults the live map only through
`isCompleteIn`, and never changes which ids are Complete, so a pass is the
pointwise promotion `stepF` below, and the do-while loop stabilizes after at
most two passes. -/

/-- Whether a pass dispatches the task: it is Ready, or Pending with all
dependencies complete (according to `φ`). -/
def promotesB (φ : String → Bool) (t : WorkflowTask) : Bool :=
  decide (t.status = WStatus.ready) ||
    (decide (t.status = WStatus.pending) && t.dependencies.all φ)

/-- The effect of one pass on one task. -/
def stepF (φ : String → Bool) (t : WorkflowTask) : WorkflowTask :=
  if promotesB φ t then { t with status := WStatus.running } else t

/-- The `assignTaskToAgent` emission for a dispatched task. -/
def assignEv (t : WorkflowTask) : WFEvent :=
  WFEvent.assignTask t.id t.role t.description

/-- The task list after one full pass. -/
def passSpecF (ts : List WorkflowTask) : List WorkflowTask :=
  ts.map (stepF (fun d => isCompleteIn ts d))

/-- The dispatch events of one full pass, in scan order. -/
def passEventsF (ts : List WorkflowTask) : List WFEvent :=
  (ts.filter (promotesB (fun d => isCompleteIn ts d))).map assignEv

/-- The (id, is-Complete) projection that determines `isCompleteIn`. -/
def projC (ts : List WorkflowTask) : List (String × Bool) :=
  ts.map (fun t => (t.id, decide (t.status = WStatus.complete)))

/-- Association-list lookup on the projection. -/
def lookupBoolList (m : List (String × Bool)) (d : String) : Bool :=
  match m with
  | [] => false
  | (k, b) :: rest => if k = d then b else lookupBoolList rest d

theorem isCompleteIn_eq_proj (ts : List WorkflowTask) (d : String) :
    isCompleteIn ts d = lookupBoolList (projC ts) d := by
  induction ts with
  | nil => rfl
  | cons t rest ih =>
      by_cases h : t.id = d
      · simp [isCompleteIn, tasksFind, projC, lookupBoolList, h]
      · simpa [isCompleteIn, tasksFind, projC, lookupBoolList, h] using ih

theorem isCompleteIn_congr (ts ts' : List WorkflowTask) (h : projC ts = projC ts')
    (d : String) : isCompleteIn ts d = isCompleteIn ts' d := by
  rw [isCompleteIn_eq_proj, isCompleteIn_eq_proj, h]

/-- A task a pass dispatches was Ready or Pending. -/
theorem promotesB_status (φ : String → Bool) (t : WorkflowTask)
    (h : promotesB φ t = true) :
    t.status = WStatus.ready ∨ t.status = WStatus.pending := by
  by_cases hr : t.status = WStatus.ready
  · exact Or.inl hr
  · right
    unfold promotesB at h
    simp [hr] at h
    exact h.1

/-- `stepF` preserves the (id, is-Complete) projection entry. -/
theorem projC_pair_stepF (φ : String → Bool) (t : WorkflowTask) :
    ((stepF φ t).id, decide ((stepF φ t).status = WStatus.complete)) =
      (t.id, decide (t.status = WStatus.complete)) := by
  unfold stepF
  by_cases h : promotesB φ t = true
  · rcases promotesB_status φ t h with hs | hs <;> simp [h, hs]
  · simp [h]

/-- Pointwise-equal functions map lists equally. -/
theorem map_congr_mem {α β : Type} (l : List α) (f g : α → β)
    (h : ∀ a ∈ l, f a = g a) : l.map f = l.map g := by
  induction l with
  | nil => rfl
  | cons x xs ih =>
      simp only [List.map_cons]
      rw [h x (by simp), ih (fun a ha => h a (by simp [ha]))]

/-- Pointwise-equal predicates filter lists equally. -/
theorem filter_congr_mem {α : Type} (l : List α) (p q : α → Bool)
    (h : ∀ a ∈ l, p a = q a) : l.filter p = l.filter q := by
  induction l with
  | nil => rfl
  | cons x xs ih =>
      simp only [List.filter_cons]
      rw [h x (by simp), ih (fun a ha => h a (by simp [ha]))]

theorem projC_map_stepF (φ : String → Bool) (ts : List WorkflowTask) :
    projC (ts.map (stepF φ)) = projC ts := by
  induction ts with
  | nil => rfl
  | cons t rest ih =>
      simp only [projC, List.map_cons] at ih ⊢
      rw [projC_pair_stepF φ t, ih]

/-- One pass of `evaluateWorkflow`, despite mutating the map while scanning
it, equals the pointwise promotion `stepF` with respect to the fixed
is-Complete view `φ` of the map at pass start: in-pass mutations only move
statuses among Pending/Ready/Running and so never change `isCompleteIn`. -/
theorem evaluatePass_eq (φ : String → Bool) (todo : List WorkflowTask) :
    ∀ (done : List WorkflowTask) (disp : Bool) (evs : List WFEvent),
      (∀ d, isCompleteIn (done ++ todo) d = φ d) →
      evaluatePass done todo disp evs =
        (done ++ todo.map (stepF φ),
          disp || todo.any (promotesB φ),
          evs ++ (todo.filter (promotesB φ)).map assignEv) := by
  induction todo with
  | nil =>
      intro done disp evs hφ
      simp [evaluatePass]
  | cons t rest ih =>
      intro done disp evs hφ
      have hfg : (fun d => isCompleteIn (done ++ t :: rest) d) = φ := funext hφ
      have hdeps : allDepsMet (done ++ t :: rest) t.dependencies =
          t.dependencies.all φ := by
        unfold allDepsMet
        rw [hfg]
      have hcongr : ∀ t' : WorkflowTask,
          (t'.id, decide (t'.status = WStatus.complete)) =
            (t.id, decide (t.status = WStatus.complete)) →
          ∀ d, isCompleteIn ((done ++ [t']) ++ rest) d = φ d := by
        intro t' hpair d
        rw [← hφ d]
        apply isCompleteIn_congr
        simp only [projC, List.append_assoc, List.singleton_append, List.map_append,
          List.map_cons]
        rw [hpair]
      cases hstat : t.status with
      | pending =>
          by_cases hall : t.dependencies.all φ = true
          · have hp : promotesB φ t = true := by
              simp [promotesB, hstat, hall]
            have hstep : stepF φ t = { t with status := WStatus.running } := by
              simp [stepF, hp]
            rw [show evaluatePass done (t :: rest) disp evs =
                evaluatePass (done ++ [{ t with status := WStatus.running }]) rest true
                  (evs ++ [WFEvent.assignTask t.id t.role t.description]) from by
              simp [evaluatePass, hstat, hdeps, hall]]
            rw [ih _ true _ (hcongr _ (by simp [hstat]))]
            simp [hstep, hp, assignEv]
          · have hp : promotesB φ t = false := by
              simp [promotesB, hstat, hall]
            have hstep : stepF φ t = t := by
              simp [stepF, hp]
            rw [show evaluatePass done (t :: rest) disp evs =
                evaluatePass (done ++ [t]) rest disp evs from by
              simp [evaluatePass, hstat, hdeps, hall]]
            rw [ih _ disp _ (hcongr _ rfl)]
            simp [hstep, hp]
      | ready =>
          have hp : promotesB φ t = true := by
            simp [promotesB, hstat]
          have hstep : stepF φ t = { t with status := WStatus.running } := by
            simp [stepF, hp]
          rw [show evaluatePass done (t :: rest) disp evs =
              evaluatePass (done ++ [{ t with status := WStatus.running }]) rest true
                (evs ++ [WFEvent.assignTask t.id t.role t.description]) from by
            simp [evaluatePass, hstat]]
          rw [ih _ true _ (hcongr _ (by simp [hstat]))]
          simp [hstep, hp, assignEv]
      | running =>
          have hp : promotesB φ t = false := by
            simp [promotesB, hstat]
          have hstep : stepF φ t = t := by
            simp [stepF, hp]
          rw [show evaluatePass done (t :: rest) disp evs =
              evaluatePass (done ++ [t]) rest disp evs from by
            simp [evaluatePass, hstat]]
          rw [ih _ disp _ (hcongr _ rfl)]
          simp [hstep, hp]
      | complete =>
          have hp : promotesB φ t = false := by
            simp [promotesB, hstat]
          have hstep : stepF φ t = t := by
            simp [stepF, hp]
          rw [show evaluatePass done (t :: rest) disp evs =
              evaluatePass (done ++ [t]) rest disp evs from by
            simp [evaluatePass, hstat]]
          rw [ih _ disp _ (hcongr _ rfl)]
          simp [hstep, hp]
      | failed =>
          have hp : promotesB φ t = false := by
            simp [promotesB, hstat]
          have hstep : stepF φ t = t := by
            simp [stepF, hp]
          rw [show evaluatePass done (t :: rest) disp evs =
              evaluatePass (done ++ [t]) rest disp evs from by
            simp [evaluatePass, hstat]]
          rw [ih _ disp _ (hcongr _ rfl)]
          simp [hstep, hp]

/-- A task a pass has just processed is never dispatched again by the next
pass over the same Complete view. -/
theorem promotesB_stepF (φ : String → Bool) (t : WorkflowTask) :
    promotesB φ (stepF φ t) = false := by
  by_cases h : promotesB φ t = true
  · have hst : stepF φ t = { t with status := WStatus.running } := by
      simp [stepF, h]
    rw [hst]
    simp [promotesB]
  · have hst : stepF φ t = t := by
      simp [stepF, h]
    rw [hst]
    cases hb : promotesB φ t with
    | false => rfl
    | true => exact absurd hb h

/-- A second pass over the result of a pass is the identity: it promotes
nothing, dispatches nothing and emits nothing. -/
theorem passSpec_fix (φ : String → Bool) (ts : List WorkflowTask) :
    (ts.map (stepF φ)).map (stepF φ) = ts.map (stepF φ) ∧
    (ts.map (stepF φ)).any (promotesB φ) = false ∧
    (ts.map (stepF φ)).filter (promotesB φ) = [] := by
  induction ts with
  | nil => simp
  | cons t rest ih =>
      have h := promotesB_stepF φ t
      have hid : stepF φ (stepF φ t) = stepF φ t := by
        show (if promotesB φ (stepF φ t) = true then _ else _) = stepF φ t
        rw [if_neg (by rw [h]; exact Bool.false_ne_true)]
      refine ⟨?_, ?_, ?_⟩
      · rw [List.map_cons, List.map_cons, hid, ih.1]
      · rw [List.map_cons, List.any_cons, h, Bool.false_or]
        exact ih.2.1
      · rw [List.map_cons, List.filter_cons]
        simp only [h, Bool.false_eq_true, if_false]
        exact ih.2.2

/-- One unfolding of the do-while loop. -/
theorem evalLoop_succ (f : Nat) (ts : List WorkflowTask) (evs : List WFEvent) :
    evalLoop (f + 1) ts evs =
      (if (evaluatePass [] ts false evs).2.1 then
        evalLoop f (evaluatePass [] ts false evs).1 (evaluatePass [] ts false evs).2.2
      else ((evaluatePass [] ts false evs).1, (evaluatePass [] ts false evs).2.2)) := rfl

/-- The do-while loop of `evaluateWorkflow` stabilizes after at most two
passes: with any fuel of at least 2 it returns the single-pass result. -/
theorem evalLoop_eq (ts : List WorkflowTask) (evs : List WFEvent) (f : Nat) :
    evalLoop (f + 2) ts evs = (passSpecF ts, evs ++ passEventsF ts) := by
  have h1 := evaluatePass_eq (fun d => isCompleteIn ts d) ts [] false evs (fun d => rfl)
  simp only [List.nil_append, Bool.false_or] at h1
  have hproj : (fun d => isCompleteIn (ts.map (stepF (fun d => isCompleteIn ts d))) d) =
      (fun d => isCompleteIn ts d) := by
    funext d
    exact isCompleteIn_congr _ _ (projC_map_stepF _ ts) d
  have hfix := passSpec_fix (fun d => isCompleteIn ts d) ts
  rw [show f + 2 = (f + 1) + 1 from rfl, evalLoop_succ (f + 1) ts evs, h1]
  by_cases hany : ts.any (promotesB fun d => isCompleteIn ts d) = true
  · rw [if_pos (by exact hany)]
    have h2 := evaluatePass_eq (fun d => isCompleteIn ts d)
      (ts.map (stepF fun d => isCompleteIn ts d)) [] false
      (evs ++ (ts.filter (promotesB fun d => isCompleteIn ts d)).map assignEv)
      (fun d => congrFun hproj d)
    simp only [List.nil_append, Bool.false_or] at h2
    rw [evalLoop_succ f _ _, h2]
    rw [if_neg (by rw [hfix.2.1]; exact Bool.false_ne_true)]
    rw [hfix.1, hfix.2.2]
    simp [passSpecF, passEventsF]
  · rw [if_neg hany]
    rfl

/-- Closed form of `evaluateWorkflow`: one promotion pass, then the
completion check. -/
theorem evaluateWorkflow_eq (s : WFState) :
    evaluateWorkflow s =
      (if ((passSpecF s.tasks).all fun t => decide (t.status = WStatus.complete)) = true ∧
          passSpecF s.tasks ≠ [] then
        (⟨[], false⟩, passEventsF s.tasks ++ [WFEvent.finished "All tasks complete."])
      else
        ({ s with tasks := passSpecF s.tasks }, passEventsF s.tasks)) := by
  unfold evaluateWorkflow
  rw [evalLoop_eq s.tasks [] s.tasks.length]
  simp

/-! The reachable states of the driver all arise from the plan's task list by
reassigning statuses; `applyStatuses` expresses that and the per-operation
lemmas below push the workflow operations through it. -/

/-- Reassign every task's status by id. -/
def applyStatuses (ts : List WorkflowTask) (σ : String → WStatus) : List WorkflowTask :=
  ts.map (fun t => { t with status := σ t.id })

/-- Point update of a status assignment. -/
def updStatus (σ : String → WStatus) (tid : String) (st : WStatus) : String → WStatus :=
  fun d => if d = tid then st else σ d

theorem ids_applyStatuses (ts : List WorkflowTask) (σ : String → WStatus) :
    (applyStatuses ts σ).map (fun t => t.id) = ts.map (fun t => t.id) := by
  unfold applyStatuses
  rw [List.map_map]
  rfl

theorem tasksSetStatus_applyStatuses (ts : List WorkflowTask) (σ : String → WStatus)
    (tid : String) (st : WStatus) :
    tasksSetStatus (applyStatuses ts σ) tid st = applyStatuses ts (updStatus σ tid st) := by
  induction ts with
  | nil => rfl
  | cons t rest ih =>
      simp only [applyStatuses, tasksSetStatus, List.map_cons] at ih ⊢
      by_cases h : t.id = tid
      · simp [h, updStatus, ih]
      · simp [h, updStatus, ih]

theorem tasksFind_applyStatuses (ts : List WorkflowTask) (σ : String → WStatus)
    (d : String) :
    tasksFind (applyStatuses ts σ) d =
      (tasksFind ts d).map (fun t => { t with status := σ t.id }) :=
  tasksFind_map (fun t => { t with status := σ t.id }) (fun _ => rfl) ts d

theorem isCompleteIn_applyStatuses (ts : List WorkflowTask) (σ : String → WStatus)
    (d : String) :
    isCompleteIn (applyStatuses ts σ) d =
      (if (tasksFind ts d).isSome then decide (σ d = WStatus.complete) else false) := by
  unfold isCompleteIn
  rw [tasksFind_applyStatuses]
  cases hf : tasksFind ts d with
  | none => rfl
  | some u =>
      have hu := tasksFind_id ts d u hf
      simp [hu]

theorem tasksFind_self (ts : List WorkflowTask)
    (hnodup : (ts.map (fun t => t.id)).Nodup) (t : WorkflowTask) (ht : t ∈ ts) :
    tasksFind ts t.id = some t := by
  induction ts with
  | nil => cases ht
  | cons u rest ih =>
      simp only [List.map_cons, List.nodup_cons] at hnodup
      rcases List.mem_cons.mp ht with rfl | hmem
      · simp [tasksFind]
      · have hne : u.id ≠ t.id := by
          intro he
          exact hnodup.1 (he ▸ List.mem_map_of_mem (fun t => t.id) hmem)
      
        simp only [tasksFind, if_neg hne]
        exact ih hnodup.2 hmem

/-- The status assignment after one promotion pass. -/
def promoteStep (ts : List WorkflowTask) (σ : String → WStatus) : String → WStatus :=
  fun d =>
    match tasksFind ts d with
    | some t =>
        if promotesB (fun x => isCompleteIn (applyStatuses ts σ) x)
            { t with status := σ d } = true then WStatus.running
        else σ d
    | none => σ d

theorem passSpecF_applyStatuses (ts : List WorkflowTask) (σ : String → WStatus)
    (hnodup : (ts.map (fun t => t.id)).Nodup) :
    passSpecF (applyStatuses ts σ) = applyStatuses ts (promoteStep ts σ) := by
  have hmm : passSpecF (applyStatuses ts σ) =
      ts.map ((stepF fun d => isCompleteIn (applyStatuses ts σ) d) ∘
        (fun t => { t with status := σ t.id })) := by
    unfold passSpecF applyStatuses
    rw [List.map_map]
  rw [hmm]
  rw [show applyStatuses ts (promoteStep ts σ) =
      ts.map (fun t => { t with status := promoteStep ts σ t.id }) from rfl]
  apply map_congr_mem
  intro t ht
  have hfind := tasksFind_self ts hnodup t ht
  show stepF (fun d => isCompleteIn (applyStatuses ts σ) d) { t with status := σ t.id } =
    { t with status := promoteStep ts σ t.id }
  have hps : promoteStep ts σ t.id =
      (if promotesB (fun x => isCompleteIn (applyStatuses ts σ) x)
          { t with status := σ t.id } = true then WStatus.running else σ t.id) := by
    unfold promoteStep
    rw [hfind]
  rw [hps]
  unfold stepF
  by_cases hp : promotesB (fun x => isCompleteIn (applyStatuses ts σ) x)
      { t with status := σ t.id } = true
  · rw [if_pos hp, if_pos hp]
  · rw [if_neg hp, if_neg hp]

/-- The driver invariant: every status is Pending, Running or Complete, and
every Pending task has an incomplete dependency (the fixpoint property
`evaluateWorkflow` leaves behind). -/
def GoodRun (ts : List WorkflowTask) (σ : String → WStatus) : Prop :=
  (∀ t ∈ ts, σ t.id = WStatus.pending ∨ σ t.id = WStatus.running ∨
    σ t.id = WStatus.complete) ∧
  (∀ t ∈ ts, σ t.id = WStatus.pending →
    ∃ d ∈ t.dependencies, σ d ≠ WStatus.complete)

/-- Number of tasks not yet Complete. -/
def notCompleteCount (ts : List WorkflowTask) (σ : String → WStatus) : Nat :=
  (ts.filter (fun t => !decide (σ t.id = WStatus.complete))).length

/-- A pass never makes a task Complete and never un-completes one. -/
theorem promoteStep_complete_iff (ts : List WorkflowTask) (σ : String → WStatus)
    (d : String) :
    (promoteStep ts σ d = WStatus.complete) ↔ (σ d = WStatus.complete) := by
  unfold promoteStep
  cases hf : tasksFind ts d with
  | none => exact Iff.rfl
  | some t =>
      dsimp only
      by_cases hp : promotesB (fun x => isCompleteIn (applyStatuses ts σ) x)
          { t with status := σ d } = true
      · rw [if_pos hp]
        have hs := promotesB_status _ _ hp
        constructor
        · intro h
          exact WStatus.noConfusion h
        · intro h
          rcases hs with hs | hs
          · rw [show ({ t with status := σ d } : WorkflowTask).status = σ d from rfl, h] at hs
            exact WStatus.noConfusion hs
          · rw [show ({ t with status := σ d } : WorkflowTask).status = σ d from rfl, h] at hs
            exact WStatus.noConfusion hs
      · rw [if_neg hp]

/-- If the filter count is positive, a task that is not Complete exists. -/
theorem exists_not_complete (ts : List WorkflowTask) (σ : String → WStatus)
    (h : 1 ≤ notCompleteCount ts σ) : ∃ t ∈ ts, σ t.id ≠ WStatus.complete := by
  unfold notCompleteCount at h
  have hne : ts.filter (fun v => !decide (σ v.id = WStatus.complete)) ≠ [] := by
    intro he
    rw [he] at h
    simp at h
  obtain ⟨t, htm⟩ := List.exists_mem_of_ne_nil _ hne
  have hmf := List.mem_filter.mp htm
  exact ⟨t, hmf.1, by simpa using hmf.2⟩

/-- Zero count means every task is Complete. -/
theorem all_complete_of_count_zero (ts : List WorkflowTask) (σ : String → WStatus)
    (h : notCompleteCount ts σ = 0) : ∀ t ∈ ts, σ t.id = WStatus.complete := by
  intro t ht
  by_contra hne
  have hmem : t ∈ ts.filter (fun v => !decide (σ v.id = WStatus.complete)) :=
    List.mem_filter.mpr ⟨ht, by simp [hne]⟩
  have hpos : 0 < (ts.filter (fun v => !decide (σ v.id = WStatus.complete))).length :=
    List.length_pos.mpr (List.ne_nil_of_mem hmem)
  unfold notCompleteCount at h
  omega

/-- Disjoint split of a filter count. -/
theorem filter_length_split {α : Type} (l : List α) (p q r : α → Bool)
    (h : ∀ a ∈ l, r a = (p a || q a) ∧ ¬(p a = true ∧ q a = true)) :
    (l.filter p).length + (l.filter q).length = (l.filter r).length := by
  induction l with
  | nil => rfl
  | cons x xs ih =>
      have hx := h x (List.mem_cons_self x xs)
      have ihh := ih (fun a ha => h a (List.mem_cons_of_mem x ha))
      simp only [List.filter_cons]
      cases hp : p x with
      | true =>
          have hq : q x = false := by
            cases hq : q x with
            | true => exact absurd ⟨hp, hq⟩ hx.2
            | false => rfl
          have hr : r x = true := by rw [hx.1, hp, Bool.true_or]
          simp only [hp, hq, hr, Bool.false_eq_true, if_false, if_true, List.length_cons]
          omega
      | false =>
          cases hq : q x with
          | true =>
              have hr : r x = true := by rw [hx.1, hp, hq, Bool.false_or]
              simp only [hp, hq, hr, Bool.false_eq_true, if_false, if_true, List.length_cons]
              omega
          | false =>
              have hr : r x = false := by rw [hx.1, hp, hq, Bool.false_or]
              simp only [hp, hq, hr, Bool.false_eq_true, if_false]
              exact ihh

/-- A filter with a pointwise-false predicate is empty. -/
theorem filter_none_length {α : Type} (l : List α) (p : α → Bool)
    (h : ∀ a ∈ l, p a = false) : (l.filter p).length = 0 := by
  induction l with
  | nil => rfl
  | cons x xs ih =>
      simp only [List.filter_cons, h x (List.mem_cons_self x xs), Bool.false_eq_true, if_false]
      exact ih (fun a ha => h a (List.mem_cons_of_mem x ha))

/-- In a map with unique ids, a member's id is hit exactly once. -/
theorem count_id_of_nodup (ts : List WorkflowTask)
    (hnodup : (ts.map (fun t => t.id)).Nodup) (t : WorkflowTask) (ht : t ∈ ts) :
    (ts.filter (fun v => decide (v.id = t.id))).length = 1 := by
  induction ts with
  | nil => cases ht
  | cons u rest ih =>
      simp only [List.map_cons, List.nodup_cons] at hnodup
      simp only [List.filter_cons]
      rcases List.mem_cons.mp ht with rfl | hmem
      · simp only [decide_eq_true_eq]
        rw [if_pos trivial]
        simp only [List.length_cons]
        have hz : (rest.filter (fun v => decide (v.id = t.id))).length = 0 := by
          apply filter_none_length
          intro v hv
          simp only [decide_eq_false_iff_not]
          intro he
          exact hnodup.1 (he ▸ List.mem_map_of_mem (fun t => t.id) hv)
        omega
      · have hne : u.id ≠ t.id := by
          intro he
          exact hnodup.1 (he ▸ List.mem_map_of_mem (fun t => t.id) hmem)
        simp only [decide_eq_true_eq]
        rw [if_neg hne]
        exact ih hnodup.2 hmem

/-- Completing one not-yet-Complete task decreases the count by one. -/
theorem notCompleteCount_upd_complete (ts0 : List WorkflowTask)
    (hnodup : (ts0.map (fun t => t.id)).Nodup) (σ : String → WStatus)
    (w : WorkflowTask) (hw : w ∈ ts0) (hnc : σ w.id ≠ WStatus.complete) :
    notCompleteCount ts0 (updStatus σ w.id WStatus.complete) + 1 =
      notCompleteCount ts0 σ := by
  unfold notCompleteCount
  have hsplit := filter_length_split ts0
    (fun v => !decide (updStatus σ w.id WStatus.complete v.id = WStatus.complete))
    (fun v => decide (v.id = w.id))
    (fun v => !decide (σ v.id = WStatus.complete))
    (by
      intro v hv
      constructor
      · by_cases hvw : v.id = w.id
        · simp [updStatus, hvw, hnc]
        · simp [updStatus, hvw]
      · by_cases hvw : v.id = w.id
        · simp [updStatus, hvw]
        · simp [hvw])
  rw [count_id_of_nodup ts0 hnodup w hw] at hsplit
  exact hsplit

/-- Progress: while some task is not Complete, some task is Running (uses the
rank function certifying acyclicity and that all dependencies exist). -/
theorem exists_running_task (ts : List WorkflowTask) (rank : String → Nat)
    (hdeps : ∀ t ∈ ts, ∀ d ∈ t.dependencies, ∃ u ∈ ts, u.id = d)
    (hrank : ∀ t ∈ ts, ∀ d ∈ t.dependencies, rank d < rank t.id)
    (σ : String → WStatus) (hg : GoodRun ts σ)
    (t : WorkflowTask) (ht : t ∈ ts) (hnc : σ t.id ≠ WStatus.complete) :
    ∃ u ∈ ts, σ u.id = WStatus.running := by
  suffices h : ∀ n : Nat, ∀ t ∈ ts, rank t.id < n → σ t.id ≠ WStatus.complete →
      ∃ u ∈ ts, σ u.id = WStatus.running by
    exact h (rank t.id + 1) t ht (Nat.lt_succ_self _) hnc
  intro n
  induction n with
  | zero =>
      intro t ht h0 _
      exact absurd h0 (Nat.not_lt_zero _)
  | succ n ihn =>
      intro t ht hlt hnc2
      rcases hg.1 t ht with hp | hr | hc
      · rcases hg.2 t ht hp with ⟨d, hd, hdnc⟩
        rcases hdeps t ht d hd with ⟨u, hu, hid⟩
        have hltu : rank u.id < n := by
          have h1 := hrank t ht d hd
          rw [hid]
          omega
        exact ihn u hu hltu (by rw [hid]; exact hdnc)
      · exact ⟨t, ht, hr⟩
      · exact absurd hc hnc2

/-- `firstRunning` finds a Running element whenever one exists. -/
theorem firstRunning_spec (L : List WorkflowTask) (u : WorkflowTask)
    (hu : u ∈ L) (hs : u.status = WStatus.running) :
    ∃ tr ∈ L, firstRunning L = some tr ∧ tr.status = WStatus.running := by
  induction L with
  | nil => cases hu
  | cons v rest ih =>
      by_cases hv : v.status = WStatus.running
      · exact ⟨v, List.mem_cons_self _ _, by simp [firstRunning, hv], hv⟩
      · rcases List.mem_cons.mp hu with rfl | hmem
        · exact absurd hs hv
        · rcases ih hmem with ⟨tr, htr, heq, hst⟩
          exact ⟨tr, List.mem_cons_of_mem _ htr, by simp [firstRunning, hv, heq], hst⟩
